import Mathlib

/-
Verification development for the flow-graph optimizer of a method-based
JIT/AOT compiler (runtime/vm/flow_graph_optimizer.h) and its ARM call
lowering (runtime/vm/compiler/backend/llvm/llvm_code_assembler_arm.cc).

The optimizer's pass implementations are not part of the inspected sources
(only the class declaration is), so those passes are modelled from the
specification's own description of each pass; definitions taken directly
from source code are marked as such.
-/

namespace DartVM

/-- Value representations of SSA definitions: tagged pointer versus the
unboxed numeric/SIMD encodings (spec data model). -/
inductive Representation where
  | tagged
  | unboxedInt32
  | unboxedInt64
  | unboxedDouble
  | unboxedSimd
deriving DecidableEq, Repr

/-! ## Constructor invariant (flow_graph_optimizer.h lines 19-28)

The constructor body is present verbatim in the header:
`ASSERT(!use_speculative_inlining || (inlining_black_list != NULL));`
A null `GrowableArray<intptr_t>*` is modelled as `none`. -/

/-- State of a constructed `FlowGraphOptimizer`: the speculative-inlining
flag and the (possibly null) inlining black list, as stored by the
constructor in the header. -/
structure FlowGraphOptimizer where
  flow_graph_ : Nat
  use_speculative_inlining_ : Bool
  inlining_black_list_ : Option (List Int)
deriving DecidableEq, Repr

/-- The constructor from the header: stores its arguments, after the
`ASSERT(!use_speculative_inlining || (inlining_black_list != NULL))`
guard; a failed assertion is modelled as `none`. -/
def FlowGraphOptimizer.construct (flow_graph : Nat)
    (use_speculative_inlining : Bool)
    (inlining_black_list : Option (List Int)) : Option FlowGraphOptimizer :=
  if !use_speculative_inlining || inlining_black_list.isSome then
    some ⟨flow_graph, use_speculative_inlining, inlining_black_list⟩
  else
    none

/-! ## Native call lowering (llvm_code_assembler_arm.cc lines 9-22) -/

/-- ARM registers used by the code assembler source. -/
inductive Reg where
  | R2
  | R9
  | SP
  | PP
  | LR
  | CODE_REG
deriving DecidableEq, Repr

/-- Static description of a call site consumed by the code assembler
(stack parameter count, pool offsets, tail-call flag). -/
structure CallSiteInfo where
  stack_parameter_count : Nat
  native_entry_pool_offset : Int
  stub_pool_offset : Int
  target_stub_pool_offset : Int
  ic_pool_offset : Int
  is_tailcall : Bool
deriving DecidableEq, Repr

/-- Abstract ARM instructions emitted by the assembler calls appearing in
the source: `add`, `LoadWordFromPoolIndex`, a field load (`ldr`), and the
branch instructions `blx`/`bx`. -/
inductive AsmInstr where
  | add (rd rn : Reg) (imm : Nat)
  | loadWordFromPoolIndex (rd : Reg) (offset : Int) (pool : Reg)
  | ldrField (rd rn : Reg) (fieldOffset : Nat)
  | blx (r : Reg)
  | bx (r : Reg)
deriving DecidableEq, Repr

/-- Word size of the 32-bit ARM target (`compiler::target::kWordSize`). -/
def kWordSize : Nat := 4

/-- Heap object tag bias subtracted from pool offsets (`kHeapObjectTag`). -/
def kHeapObjectTag : Int := 1

/-- Offset of the normal entry point inside a Code object
(`Code::entry_point_offset(CodeEntryKind::kNormal)`); external layout
constant, its value is not relied upon by any theorem. -/
def entry_point_offset_kNormal : Nat := 8

/-- `CodeAssembler::GenerateNativeCall` transcribed from
llvm_code_assembler_arm.cc: compute the stack-argument address into R2,
load the native entry pool slot into R9 and the stub pool slot into
CODE_REG, load the stub entry point into LR, and `blx LR` (the source
comments that `blx` is used so return branch prediction works). -/
def generateNativeCall (csi : CallSiteInfo) : List AsmInstr :=
  [ .add .R2 .SP (csi.stack_parameter_count * kWordSize),
    .loadWordFromPoolIndex .R9 (csi.native_entry_pool_offset - kHeapObjectTag) .PP,
    .loadWordFromPoolIndex .CODE_REG (csi.stub_pool_offset - kHeapObjectTag) .PP,
    .ldrField .LR .CODE_REG entry_point_offset_kNormal,
    .blx .LR ]

/-- C10: every successfully constructed `FlowGraphOptimizer` satisfies
`use_speculative_inlining_ → inlining_black_list_ ≠ NULL` (the constructor
asserts this), and constructing with speculative inlining enabled and a
null black list trips the assertion (yields no instance). -/
theorem flowGraphOptimizer_construct_black_list_invariant :
    (∀ fg spec bl opt, FlowGraphOptimizer.construct fg spec bl = some opt →
      opt.use_speculative_inlining_ = true →
        opt.inlining_black_list_.isSome = true) ∧
    (∀ fg, FlowGraphOptimizer.construct fg true none = none) := by
  constructor
  · intro fg spec bl opt hmk hspec
    unfold FlowGraphOptimizer.construct at hmk
    by_cases hc : (!spec || bl.isSome) = true
    · rw [if_pos hc] at hmk
      cases hmk
      have hs : spec = true := hspec
      show bl.isSome = true
      subst hs
      simpa using hc
    · rw [if_neg hc] at hmk
      exact absurd hmk (by simp)
  · intro fg
    rfl

/-- C10 witness: a concrete successful construction with speculative
inlining enabled carries a non-null black list. -/
theorem flowGraphOptimizer_construct_black_list_invariant_witness :
    (⟨0, true, some [7]⟩ : FlowGraphOptimizer).inlining_black_list_.isSome = true :=
  flowGraphOptimizer_construct_black_list_invariant.1 0 true (some [7])
    ⟨0, true, some [7]⟩ rfl rfl

/-- C9 counterexample: at a concrete `CallSiteInfo`, the sequence emitted
by `GenerateNativeCall` has five instructions, not three. -/
theorem generateNativeCall_not_three_instructions :
    (generateNativeCall ⟨0, 2, 3, 4, 5, false⟩).length ≠ 3 := by
  decide

/-- C9 (amended): for every `CallSiteInfo`, `GenerateNativeCall` emits a
five-instruction sequence that includes a load of the native entry pool
slot into R9 and ends with a branch-with-link (`blx LR`, preserving
return branch prediction). -/
theorem generateNativeCall_shape (csi : CallSiteInfo) :
    (generateNativeCall csi).length = 5 ∧
    AsmInstr.loadWordFromPoolIndex .R9
        (csi.native_entry_pool_offset - kHeapObjectTag) .PP
      ∈ generateNativeCall csi ∧
    (generateNativeCall csi).getLast? = some (.blx .LR) := by
  refine ⟨rfl, ?_, rfl⟩
  simp [generateNativeCall]

/-! ## Representation selection and conversion insertion (spec section 4.6)

Modelled from the spec: the bodies of `SelectRepresentations`,
`InsertConversionsFor`, `ConvertUse` and `InsertConversion` are not part of
the inspected sources (flow_graph_optimizer.h only declares them). -/

/-- Use edge: a consuming instruction reads a definition and demands a
representation at that use site. -/
structure UseEdge where
  consumer : Nat
  defId : Nat
  required : Representation
deriving DecidableEq, Repr

/-- Conversion instruction spliced immediately before its consuming
instruction, converting a definition between two representations. -/
structure Conversion where
  before : Nat
  defId : Nat
  fromRep : Representation
  toRep : Representation
deriving DecidableEq, Repr

/-- Representation-level view of a flow graph: the definition ids, the use
edges, the representation selected for each definition, and the conversion
instructions inserted so far. -/
structure RGraph where
  defIds : List Nat
  uses : List UseEdge
  selected : Nat → Representation
  conversions : List Conversion

/-- Representations demanded by the uses of a definition. -/
def demandedReps (g : RGraph) (d : Nat) : List Representation :=
  (g.uses.filter (fun u => u.defId == d)).map UseEdge.required

/-- Modelled from the spec: the representation `SelectRepresentations`
assigns one definition — kept unboxed when every use demands the same
unboxed representation, otherwise tagged. -/
def selectRepFor (g : RGraph) (d : Nat) : Representation :=
  match demandedReps g d with
  | [] => .tagged
  | r :: rs => if rs.all (fun x => x == r) && !(r == Representation.tagged)
               then r else .tagged

/-- Modelled from the spec: `SelectRepresentations` assigns each
definition a representation based on the demands of its uses. -/
def selectRepresentations (g : RGraph) : RGraph :=
  { g with selected := selectRepFor g }

/-- Modelled from the spec: `ConvertUse`/`InsertConversion` — where the
use's required representation differs from the definition's selected one,
splice a conversion immediately before the consuming instruction. -/
def convertUse (sel : Nat → Representation) (u : UseEdge) : List Conversion :=
  if sel u.defId = u.required then []
  else [⟨u.consumer, u.defId, sel u.defId, u.required⟩]

/-- Modelled from the spec: `InsertConversionsFor(def)` walks every use of
`def` and inserts the conversions its uses need. -/
def insertConversionsFor (g : RGraph) (d : Nat) : RGraph :=
  { g with conversions :=
      g.conversions ++
        (g.uses.filter (fun u => u.defId == d)).flatMap (convertUse g.selected) }

/-- Conversion insertion applied to every definition of the graph. -/
def insertAllConversions (g : RGraph) : RGraph :=
  g.defIds.foldl insertConversionsFor g

theorem repfold_uses : ∀ (l : List Nat) (g : RGraph),
    (l.foldl insertConversionsFor g).uses = g.uses
  | [], _ => rfl
  | d :: l, g => repfold_uses l (insertConversionsFor g d)

theorem repfold_selected : ∀ (l : List Nat) (g : RGraph),
    (l.foldl insertConversionsFor g).selected = g.selected
  | [], _ => rfl
  | d :: l, g => repfold_selected l (insertConversionsFor g d)

theorem repfold_conversions_mono : ∀ (l : List Nat) (g : RGraph)
    (c : Conversion), c ∈ g.conversions →
    c ∈ (l.foldl insertConversionsFor g).conversions
  | [], _, _, hc => hc
  | d :: l, g, c, hc =>
      repfold_conversions_mono l (insertConversionsFor g d) c
        (List.mem_append_left _ hc)

theorem repfold_conversions_complete : ∀ (l : List Nat) (g : RGraph)
    (d : Nat) (c : Conversion), d ∈ l →
    c ∈ (g.uses.filter (fun u => u.defId == d)).flatMap (convertUse g.selected) →
    c ∈ (l.foldl insertConversionsFor g).conversions
  | [], _, _, _, hd, _ => absurd hd (List.not_mem_nil _)
  | a :: l, g, d, c, hd, hc => by
      rcases List.mem_cons.mp hd with h | h
      · subst h
        exact repfold_conversions_mono l _ c (List.mem_append_right _ hc)
      · exact repfold_conversions_complete l (insertConversionsFor g a) d c h hc

/-- C1: after `SelectRepresentations` followed by `InsertConversionsFor`
on every definition, each use edge either sees its definition in exactly
the representation it requires, or a conversion instruction spliced
immediately before the consuming instruction bridges the mismatch. -/
theorem representation_closure (g0 : RGraph) (u : UseEdge)
    (hu : u ∈ g0.uses) (hd : u.defId ∈ g0.defIds) :
    (insertAllConversions (selectRepresentations g0)).selected u.defId
        = u.required ∨
    ∃ c ∈ (insertAllConversions (selectRepresentations g0)).conversions,
      c.before = u.consumer ∧ c.defId = u.defId ∧
      c.fromRep
          = (insertAllConversions (selectRepresentations g0)).selected u.defId ∧
      c.toRep = u.required := by
  have husel : (insertAllConversions (selectRepresentations g0)).selected
      = (selectRepresentations g0).selected :=
    repfold_selected _ _
  by_cases h : (selectRepresentations g0).selected u.defId = u.required
  · left
    rw [husel]
    exact h
  · right
    have hc : (⟨u.consumer, u.defId,
        (selectRepresentations g0).selected u.defId, u.required⟩ : Conversion)
        ∈ ((selectRepresentations g0).uses.filter
            (fun v => v.defId == u.defId)).flatMap
          (convertUse (selectRepresentations g0).selected) := by
      apply List.mem_flatMap.mpr
      refine ⟨u, List.mem_filter.mpr ⟨hu, by simp⟩, ?_⟩
      simp [convertUse, h]
    refine ⟨_, repfold_conversions_complete (selectRepresentations g0).defIds
        (selectRepresentations g0) u.defId _ hd hc, rfl, rfl, ?_, rfl⟩
    rw [husel]

/-- Concrete graph for the C1 witness: one definition (id 5) with two
uses demanding different representations, so selection picks `tagged` and
the unboxed-double use needs a conversion. -/
def repWitnessGraph : RGraph :=
  ⟨[5], [⟨7, 5, .unboxedDouble⟩, ⟨8, 5, .tagged⟩], fun _ => .tagged, []⟩

/-- C1 witness: the closure property evaluated on `repWitnessGraph` at the
unboxed-double use. -/
theorem representation_closure_witness :
    (insertAllConversions (selectRepresentations repWitnessGraph)).selected 5
        = Representation.unboxedDouble ∨
    ∃ c ∈ (insertAllConversions (selectRepresentations repWitnessGraph)).conversions,
      c.before = 7 ∧ c.defId = 5 ∧
      c.fromRep
          = (insertAllConversions (selectRepresentations repWitnessGraph)).selected 5 ∧
      c.toRep = Representation.unboxedDouble :=
  representation_closure repWitnessGraph ⟨7, 5, .unboxedDouble⟩
    (by decide) (by decide)

/-! ## Deoptimization environments (spec sections 4.6 and 4.7)

Modelled from the spec: the bodies of `ConvertEnvironmentUse` and
`EliminateEnvironments` are not part of the inspected sources. -/

/-- Slot of a deoptimization environment: a captured SSA value together
with the representation it is captured in. -/
structure EnvSlot where
  value : Nat
  rep : Representation
deriving DecidableEq, Repr

/-- Instruction as seen by the environment passes: its deoptimization
predicate (`CanDeoptimize()`) and its optional environment. -/
structure DInstr where
  canDeoptimize : Bool
  deoptId : Nat
  env : Option (List EnvSlot)
deriving DecidableEq, Repr

/-- Modelled from the spec: `ConvertEnvironmentUse` re-tags a value
captured in a deoptimization environment so a deopt always observes a
tagged, interpreter-compatible representation. -/
def convertEnvironmentUse (s : EnvSlot) : EnvSlot :=
  { s with rep := .tagged }

/-- Re-tagging applied to every environment slot of every instruction. -/
def convertEnvironmentUses (g : List DInstr) : List DInstr :=
  g.map (fun i => { i with env := i.env.map (List.map convertEnvironmentUse) })

/-- Modelled from the spec: `EliminateEnvironments` removes environments
only from instructions that can no longer deoptimize. -/
def eliminateEnvironments (g : List DInstr) : List DInstr :=
  g.map (fun i => if i.canDeoptimize then i else { i with env := none })

/-- C2: on a graph satisfying the input contract (every deopt-capable
instruction carries an environment), after environment-use conversion and
environment elimination every instruction whose `CanDeoptimize()` is true
still carries a non-null environment whose captured values are all in
tagged representation. -/
theorem deopt_environment_invariant (g : List DInstr)
    (hin : ∀ i ∈ g, i.canDeoptimize = true → i.env ≠ none)
    (i : DInstr) (hi : i ∈ eliminateEnvironments (convertEnvironmentUses g))
    (hd : i.canDeoptimize = true) :
    ∃ slots, i.env = some slots ∧
      ∀ s ∈ slots, s.rep = Representation.tagged := by
  unfold eliminateEnvironments at hi
  obtain ⟨j, hj, hji⟩ := List.mem_map.mp hi
  unfold convertEnvironmentUses at hj
  obtain ⟨k, hk, hkj⟩ := List.mem_map.mp hj
  subst hkj
  by_cases hcd : k.canDeoptimize = true
  · simp only [hcd, if_true] at hji
    subst hji
    have henv := hin k hk hcd
    cases he : k.env with
    | none => exact absurd he henv
    | some slots =>
        refine ⟨slots.map convertEnvironmentUse, by simp [he], ?_⟩
        intro s hs
        obtain ⟨t, _, hts⟩ := List.mem_map.mp hs
        subst hts
        rfl
  · simp only [Bool.not_eq_true] at hcd
    simp only [hcd, if_false] at hji
    subst hji
    exact absurd hd (by simp [hcd])

/-- C2 witness: the invariant evaluated on a one-instruction graph whose
environment captured an unboxed value. -/
theorem deopt_environment_invariant_witness :
    ∃ slots,
      (⟨true, 0, some [⟨3, Representation.tagged⟩]⟩ : DInstr).env = some slots ∧
      ∀ s ∈ slots, s.rep = Representation.tagged :=
  deopt_environment_invariant [⟨true, 0, some [⟨3, .unboxedInt32⟩]⟩]
    (by decide) ⟨true, 0, some [⟨3, .tagged⟩]⟩ (by decide) rfl

/-! ## Feedback specialization (spec section 4.1)

Modelled from the spec: the body of `ApplyICData` is not part of the
inspected sources; the monomorphic Smi `+` rewrite is the case the
specification describes concretely. -/

/-- Call selector: the binary `+` operator or some other method. -/
inductive Selector where
  | plus
  | other (n : Nat)
deriving DecidableEq, Repr

/-- Modelled class id of the small-integer (Smi) class. -/
def kSmiCid : Nat := 1

/-- Instructions involved in the monomorphic specialization scenario: a
dynamic instance call with its ICData (observed class id, count) pairs and
deopt id, and the specialized instructions produced for Smi `+`. -/
inductive ICInstr where
  | instanceCall (recv arg : Nat) (sel : Selector)
      (icData : List (Nat × Nat)) (deoptId : Nat)
  | checkSmi (v : Nat) (deoptId : Nat)
  | binarySmiAdd (recv arg : Nat) (deoptId : Nat)
deriving DecidableEq, Repr

/-- Modelled from the spec: `ApplyICData` rewrites an instance call of `+`
whose ICData shows a single observed receiver class into a class-checked
direct form — for the Smi class, a `CheckSmi` on each operand followed by
`BinarySmiAdd`, all reusing the call's deopt id; calls whose feedback does
not determine a safe single target are left as generic dispatch. -/
def applyICData (block : List ICInstr) : List ICInstr :=
  block.flatMap fun i =>
    match i with
    | .instanceCall r a sel ic d =>
        match sel, ic with
        | .plus, [(cid, _)] =>
            if cid = kSmiCid then
              [.checkSmi r d, .checkSmi a d, .binarySmiAdd r a d]
            else [.instanceCall r a sel ic d]
        | _, _ => [.instanceCall r a sel ic d]
    | i => [i]

/-- C3: an instance call `x.+(y)` whose ICData records exactly the Smi
class is rewritten by `ApplyICData` into
`CheckSmi(x); CheckSmi(y); BinarySmiAdd(x,y)`, every inserted instruction
reusing the call's deopt id, and a second run of `ApplyICData` on the
rewritten graph performs no further rewrite. -/
theorem applyICData_monomorphic_specialization (x y d n : Nat) :
    applyICData [.instanceCall x y .plus [(kSmiCid, n)] d]
        = [.checkSmi x d, .checkSmi y d, .binarySmiAdd x y d] ∧
    applyICData (applyICData [.instanceCall x y .plus [(kSmiCid, n)] d])
        = applyICData [.instanceCall x y .plus [(kSmiCid, n)] d] :=
  ⟨rfl, rfl⟩

/-! ## Recognized-method inlining (spec section 4.3)

Modelled from the spec: the body of `TryInlineRecognizedMethod` is not
part of the inspected sources. The protocol is: (1) verify the receiver's
class id is inlinable for the operation — declining before any mutation;
(2) insert a bounds check; (3) replace the call with a direct load/store;
(4) leave the rest of the block untouched. -/

/-- Closed catalog of recognized methods used by the model. -/
inductive RecognizedKind where
  | objectArrayGetIndexed
  | objectArraySetIndexed
  | unrecognized
deriving DecidableEq, Repr

/-- Modelled class id of fixed-length object arrays. -/
def kArrayCid : Nat := 10

/-- Modelled class id of immutable object arrays. -/
def kImmutableArrayCid : Nat := 11

/-- Receiver class ids for which a recognized operation may be inlined. -/
def inlinableCids : RecognizedKind → List Nat
  | .objectArrayGetIndexed => [kArrayCid, kImmutableArrayCid]
  | .objectArraySetIndexed => [kArrayCid]
  | .unrecognized => []

/-- Instructions involved in recognized-method inlining: the original call
(with its input list, output definition and basic-block membership) and
the check/load/store instructions an inlined indexed operation expands
to. -/
inductive IInstr where
  | call (id : Nat) (inputs : List Nat) (output : Nat) (block : Nat)
  | checkArrayBound (index receiver : Nat) (block : Nat)
  | loadIndexed (receiver index output : Nat) (block : Nat)
  | storeIndexed (receiver index value : Nat) (block : Nat)
deriving DecidableEq, Repr

/-- Inline expansion of a recognized indexed operation: a bounds check
followed by the direct load/store, in the call's block. -/
def inlineSeq (inputs : List Nat) (output blk : Nat) :
    RecognizedKind → List IInstr
  | .objectArrayGetIndexed =>
      [.checkArrayBound (inputs.getD 1 0) (inputs.getD 0 0) blk,
       .loadIndexed (inputs.getD 0 0) (inputs.getD 1 0) output blk]
  | .objectArraySetIndexed =>
      [.checkArrayBound (inputs.getD 1 0) (inputs.getD 0 0) blk,
       .storeIndexed (inputs.getD 0 0) (inputs.getD 1 0) (inputs.getD 2 0) blk]
  | .unrecognized => []

/-- Replace the call with the given id by its inline expansion, keeping
every other instruction in place; `none` when the call is absent. -/
def replaceCallInBlock : List IInstr → Nat → RecognizedKind →
    Option (List IInstr)
  | [], _, _ => none
  | .call id inputs output blk :: rest, callId, k =>
      if id = callId then some (inlineSeq inputs output blk k ++ rest)
      else (replaceCallInBlock rest callId k).map (.call id inputs output blk :: ·)
  | i :: rest, callId, k => (replaceCallInBlock rest callId k).map (i :: ·)

/-- Modelled from the spec: `TryInlineRecognizedMethod` verifies the
receiver class id is inlinable for the recognized operation before any
mutation, then atomically replaces the call by its inline expansion;
declining (first component `false`) returns the block as given. -/
def tryInlineRecognizedMethod (instrs : List IInstr) (callId : Nat)
    (k : RecognizedKind) (receiverCid : Nat) : Bool × List IInstr :=
  if receiverCid ∈ inlinableCids k then
    match replaceCallInBlock instrs callId k with
    | some instrs2 => (true, instrs2)
    | none => (false, instrs)
  else (false, instrs)

/-- C4: whenever `TryInlineRecognizedMethod` declines to inline, the block
— and hence the call instruction's inputs, output and basic-block
membership — is exactly as it was before the attempt; no partial mutation
is observable by the caller on failure. -/
theorem tryInlineRecognizedMethod_failure_atomicity (instrs : List IInstr)
    (callId : Nat) (k : RecognizedKind) (receiverCid : Nat)
    (h : (tryInlineRecognizedMethod instrs callId k receiverCid).fst = false) :
    (tryInlineRecognizedMethod instrs callId k receiverCid).snd = instrs := by
  unfold tryInlineRecognizedMethod at h ⊢
  by_cases hmem : receiverCid ∈ inlinableCids k
  · rw [if_pos hmem] at h ⊢
    cases hrc : replaceCallInBlock instrs callId k with
    | some l =>
        rw [hrc] at h
        exact absurd h (by simp)
    | none => rfl
  · rw [if_neg hmem]

/-- C4 witness: a declined inline attempt (unrecognized method) on a
one-call block leaves the block unchanged. -/
theorem tryInlineRecognizedMethod_failure_atomicity_witness :
    (tryInlineRecognizedMethod [.call 1 [2, 3] 4 0] 1 .unrecognized 10).snd
        = [.call 1 [2, 3] 4 0] :=
  tryInlineRecognizedMethod_failure_atomicity [.call 1 [2, 3] 4 0] 1
    .unrecognized 10 (by decide)

/-! ## Shift/mask peephole fusion (spec section 4.4)

Modelled from the spec and the header comment on `TryOptimizePatterns`
("Optimize (a << b) & c pattern: if c is a positive Smi or zero, then the
shift can be a truncating Smi shift-left and result is always Smi"); the
body of `OptimizeLeftShiftBitAndSmiOp` is not part of the inspected
sources. -/

/-- Largest small integer (Smi) on a 32-bit target: 2^30 - 1. -/
def kMaxSmi : Nat := 2 ^ 30 - 1

/-- Instructions of the shift/mask idiom: a checked Smi shift-left, a
bit-and with a compile-time constant, and the fused truncating
shift-and-mask that needs no overflow check. -/
inductive SmiInstr where
  | binaryShl (dst a b : Nat)
  | bitAnd (dst src : Nat) (c : Nat)
  | truncShlBitAnd (dst a b : Nat) (c : Nat)
deriving DecidableEq, Repr

/-- Does the instruction read the given SSA variable? -/
def readsVar : SmiInstr → Nat → Bool
  | .binaryShl _ a b, v => a == v || b == v
  | .bitAnd _ s _, v => s == v
  | .truncShlBitAnd _ a b _, v => a == v || b == v

/-- Number of reads of a variable inside a block. -/
def countReads (block : List SmiInstr) (v : Nat) : Nat :=
  (block.filter (fun i => readsVar i v)).length

/-- Operands of the shift-left defining the given variable, if any. -/
def findShlDef : List SmiInstr → Nat → Option (Nat × Nat)
  | [], _ => none
  | .binaryShl t a b :: rest, v =>
      if t == v then some (a, b) else findShlDef rest v
  | _ :: rest, v => findShlDef rest v

/-- Fuse one bit-and with the shift-left defining its operand, when the
mask is a non-negative Smi constant. -/
def fuseBitAnd (block : List SmiInstr) : SmiInstr → SmiInstr
  | .bitAnd t2 t1 c =>
      match findShlDef block t1 with
      | some (a, b) =>
          if c ≤ kMaxSmi then .truncShlBitAnd t2 a b c else .bitAnd t2 t1 c
      | none => .bitAnd t2 t1 c
  | i => i

/-- Modelled from the spec: `OptimizeLeftShiftBitAndSmiOp` rewrites each
`(a << b) & c` whose mask `c` is a non-negative Smi constant into the
fused truncating shift, then drops any shift-left whose result is no
longer read. -/
def optimizeLeftShiftBitAndSmiOp (block : List SmiInstr) : List SmiInstr :=
  let fused := block.map (fuseBitAnd block)
  fused.filter (fun i =>
    match i with
    | .binaryShl t _ _ => countReads fused t != 0
    | _ => true)

/-- Whether the instruction still requires a Smi overflow check: the plain
shift-left does, the fused truncating form does not. -/
def needsOverflowCheck : SmiInstr → Bool
  | .binaryShl _ _ _ => true
  | _ => false

/-- Value computed by the fused instruction: truncating Smi shift-left
followed by the constant mask. -/
def truncShlBitAndVal (x s c : Nat) : Nat :=
  ((x <<< s) % 2 ^ 31) &&& c

/-- C5: the block `t1 = a << b; t2 = t1 & c` with `c` a non-negative Smi
constant is fused by `OptimizeLeftShiftBitAndSmiOp` into the single
truncating shift producing `t2` directly, `t1` is removed (it has no other
uses), the fused instruction carries no overflow check, and its result is
always representable as a Smi. -/
theorem optimizeLeftShiftBitAndSmiOp_fusion (t1 t2 a b c : Nat)
    (hc : c ≤ kMaxSmi) (ha : a ≠ t1) (hb : b ≠ t1) :
    optimizeLeftShiftBitAndSmiOp [.binaryShl t1 a b, .bitAnd t2 t1 c]
        = [.truncShlBitAnd t2 a b c] ∧
    needsOverflowCheck (.truncShlBitAnd t2 a b c) = false ∧
    ∀ x s, truncShlBitAndVal x s c ≤ kMaxSmi := by
  refine ⟨?_, rfl, ?_⟩
  · simp [optimizeLeftShiftBitAndSmiOp, fuseBitAnd, findShlDef, countReads,
      readsVar, hc, ha, hb]
  · intro x s
    exact le_trans Nat.and_le_right hc

/-- C5 witness: the fusion evaluated on the spec's concrete scenario
`t1 = a << 2; t2 = t1 & 3`. -/
theorem optimizeLeftShiftBitAndSmiOp_fusion_witness :
    optimizeLeftShiftBitAndSmiOp [.binaryShl 1 3 4, .bitAnd 2 1 3]
        = [.truncShlBitAnd 2 3 4 3] ∧ truncShlBitAndVal 5 2 3 ≤ kMaxSmi :=
  ⟨(optimizeLeftShiftBitAndSmiOp_fusion 1 2 3 4 3 (by decide) (by decide)
      (by decide)).1,
   (optimizeLeftShiftBitAndSmiOp_fusion 1 2 3 4 3 (by decide) (by decide)
      (by decide)).2.2 5 2⟩

/-! ## Guard/check insertion with the redundant-check cache
(spec sections 4.1 and 4.2)

Modelled from the spec: the bodies of `AddCheckClass` and
`AddReceiverCheck` are not part of the inspected sources. -/

/-- A class-check instruction: deoptimizes unless the value's runtime
class is in the permitted set. -/
structure CheckClassInstr where
  valueId : Nat
  permitted : List Nat
  deoptId : Nat
deriving DecidableEq, Repr

/-- Check-insertion state: the dominating-check cache of proven
(value, class) facts, and the check instructions inserted so far. -/
structure CheckState where
  proven : List (Nat × Nat)
  checks : List CheckClassInstr
deriving DecidableEq, Repr

/-- Modelled from the spec: `AddCheckClass` consults the redundant-check
cache — a value already proven to have a class in the permitted set is not
re-checked; otherwise the check is inserted and a singleton permitted set
is recorded as a proven fact. -/
def addCheckClass (st : CheckState) (valueId : Nat) (permitted : List Nat)
    (deoptId : Nat) : CheckState :=
  if st.proven.any (fun p => p.1 == valueId && decide (p.2 ∈ permitted)) then
    st
  else
    { proven :=
        (match permitted with
         | [cls] => [(valueId, cls)]
         | _ => []) ++ st.proven,
      checks := st.checks ++ [⟨valueId, permitted, deoptId⟩] }

/-- A dynamic instance call as seen by check insertion: receiver value,
ICData (class id, count) pairs, and deopt id. -/
structure RecvCall where
  receiver : Nat
  icData : List (Nat × Nat)
  deoptId : Nat
deriving DecidableEq, Repr

/-- Modelled from the spec: `AddReceiverCheck` going through the same
cache, with the permitted set derived from the call's own ICData. -/
def addReceiverCheckCached (st : CheckState) (call : RecvCall) : CheckState :=
  addCheckClass st call.receiver (call.icData.map Prod.fst) call.deoptId

theorem addCheckClass_noop_of_proven (st : CheckState) (v cls deoptId : Nat)
    (permitted : List Nat) (hC : (v, cls) ∈ st.proven)
    (hmem : cls ∈ permitted) :
    addCheckClass st v permitted deoptId = st := by
  have hany : st.proven.any
      (fun p => p.1 == v && decide (p.2 ∈ permitted)) = true :=
    List.any_eq_true.mpr ⟨(v, cls), hC, by simp [hmem]⟩
  simp [addCheckClass, hany]

/-- C7: for a value already proven by a dominating check to have class C,
a subsequent `AddCheckClass` — or `AddReceiverCheck` whose call's ICData
yields a permitted set containing C — inserts no new check instruction
(the state, in particular the check list, is unchanged). -/
theorem addCheckClass_redundant_noop (st : CheckState) (v cls deoptId : Nat)
    (permitted : List Nat) (hC : (v, cls) ∈ st.proven)
    (hmem : cls ∈ permitted) :
    addCheckClass st v permitted deoptId = st ∧
    ∀ call : RecvCall, call.receiver = v →
      cls ∈ call.icData.map Prod.fst → addReceiverCheckCached st call = st := by
  refine ⟨addCheckClass_noop_of_proven st v cls deoptId permitted hC hmem, ?_⟩
  intro call hrecv hic
  unfold addReceiverCheckCached
  rw [hrecv]
  exact addCheckClass_noop_of_proven st v cls call.deoptId _ hC hic

/-- C7 witness: the no-op evaluated on a concrete cache that has proven
value 4 to be of class 9. -/
theorem addCheckClass_redundant_noop_witness :
    addCheckClass ⟨[(4, 9)], []⟩ 4 [9, 12] 0 = ⟨[(4, 9)], []⟩ ∧
    addReceiverCheckCached ⟨[(4, 9)], []⟩ ⟨4, [(9, 500)], 0⟩
        = ⟨[(4, 9)], []⟩ :=
  ⟨(addCheckClass_redundant_noop ⟨[(4, 9)], []⟩ 4 9 0 [9, 12] (by decide)
      (by decide)).1,
   (addCheckClass_redundant_noop ⟨[(4, 9)], []⟩ 4 9 0 [9, 12] (by decide)
      (by decide)).2 ⟨4, [(9, 500)], 0⟩ rfl (by decide)⟩

/-! ## AddReceiverCheck placement and metadata reuse (spec section 4.2) -/

/-- A dynamic instance call carrying the data `AddReceiverCheck` reads:
receiver, ICData, deopt id, and the deoptimization environment (modelled
by its id, `none` when detached). -/
structure InstanceCallData where
  receiver : Nat
  icData : List (Nat × Nat)
  deoptId : Nat
  env : Option Nat
deriving DecidableEq, Repr

/-- Instructions of the block `AddReceiverCheck` operates on. -/
inductive GInstr where
  | checkClass (valueId : Nat) (permitted : List Nat) (deoptId : Nat)
      (env : Option Nat)
  | instanceCall (c : InstanceCallData)
  | other (n : Nat)
deriving DecidableEq, Repr

/-- The receiver check derived from a call's own ICData, reusing the
call's deopt id and environment. -/
def receiverCheckFor (c : InstanceCallData) : GInstr :=
  .checkClass c.receiver (c.icData.map Prod.fst) c.deoptId c.env

/-- Splice an instruction immediately before the given call. -/
def insertBeforeCall : List GInstr → InstanceCallData → GInstr → List GInstr
  | [], _, _ => []
  | i :: rest, c, chk =>
      if i = GInstr.instanceCall c then chk :: i :: rest
      else i :: insertBeforeCall rest c chk

/-- Modelled from the spec: `AddReceiverCheck` derives the check from the
call's ICData and inserts it immediately before the call, reusing the
call's deopt id and environment. -/
def addReceiverCheck (block : List GInstr) (c : InstanceCallData) :
    List GInstr :=
  insertBeforeCall block c (receiverCheckFor c)

theorem insertBeforeCall_spec : ∀ (pre post : List GInstr)
    (c : InstanceCallData) (chk : GInstr),
    GInstr.instanceCall c ∉ pre →
    insertBeforeCall (pre ++ GInstr.instanceCall c :: post) c chk =
      pre ++ chk :: GInstr.instanceCall c :: post
  | [], post, c, chk, _ => by simp [insertBeforeCall]
  | i :: pre, post, c, chk, h => by
      have hne : i ≠ GInstr.instanceCall c := fun he =>
        h (he ▸ List.mem_cons_self _ _)
      simp only [List.cons_append, insertBeforeCall, if_neg hne, List.append_eq]
      rw [insertBeforeCall_spec pre post c chk
        (fun hm => h (List.mem_cons_of_mem _ hm))]

/-- C8: `AddReceiverCheck` inserts, immediately before the call, a class
check whose permitted set is derived from that call's own ICData and which
reuses the call's deopt id and deoptimization environment — no new
environment is fabricated. -/
theorem addReceiverCheck_contract (pre post : List GInstr)
    (c : InstanceCallData) (hpre : GInstr.instanceCall c ∉ pre) :
    addReceiverCheck (pre ++ GInstr.instanceCall c :: post) c =
      pre ++ GInstr.checkClass c.receiver (c.icData.map Prod.fst) c.deoptId
          c.env :: GInstr.instanceCall c :: post :=
  insertBeforeCall_spec pre post c (receiverCheckFor c) hpre

/-- C8 witness: the contract evaluated on a concrete one-call block. -/
theorem addReceiverCheck_contract_witness :
    addReceiverCheck [.other 0, .instanceCall ⟨2, [(9, 500)], 7, some 3⟩]
        ⟨2, [(9, 500)], 7, some 3⟩ =
      [.other 0, .checkClass 2 [9] 7 (some 3),
       .instanceCall ⟨2, [(9, 500)], 7, some 3⟩] :=
  addReceiverCheck_contract [.other 0] [] ⟨2, [(9, 500)], 7, some 3⟩
    (by decide)

/-! ## Canonicalization (spec section 4.5)

Modelled from the spec: the body of `Canonicalize` is not part of the
inspected sources. The model repeatedly applies local algebraic
identities — folding a self-inverse operation (`neg (neg x)` becomes `x`)
and stripping a no-op representation conversion — until a fixed point;
every applied identity removes one instruction and rewires its uses, so
the instruction count strictly decreases and the iteration terminates. -/

/-- Instructions of the canonicalization model: unary negation, a
representation conversion, binary addition, and a parameter. -/
inductive CInstr where
  | unaryNeg (dst src : Nat)
  | conversion (dst src : Nat) (fromRep toRep : Representation)
  | binaryAdd (dst l r : Nat)
  | param (dst : Nat)
deriving DecidableEq, Repr

/-- SSA definition produced by an instruction. -/
def defOfC : CInstr → Nat
  | .unaryNeg d _ => d
  | .conversion d _ _ _ => d
  | .binaryAdd d _ _ => d
  | .param d => d

/-- Rewire every read of one definition to another. -/
def substOperands (a b : Nat) : CInstr → CInstr
  | .unaryNeg d s => .unaryNeg d (if s == a then b else s)
  | .conversion d s r1 r2 => .conversion d (if s == a then b else s) r1 r2
  | .binaryAdd d l r =>
      .binaryAdd d (if l == a then b else l) (if r == a then b else r)
  | .param d => .param d

/-- Operand of the negation defining the given variable, if any. -/
def findNegDef : List CInstr → Nat → Option Nat
  | [], _ => none
  | .unaryNeg d s :: rest, v => if d == v then some s else findNegDef rest v
  | _ :: rest, v => findNegDef rest v

/-- Replacement definition when the instruction is a local redex: a no-op
conversion is replaced by its operand, and a negation of a negation by the
inner operand. -/
def redexTarget (whole : List CInstr) : CInstr → Option Nat
  | .conversion _ s r1 r2 => if r1 == r2 then some s else none
  | .unaryNeg _ s => findNegDef whole s
  | _ => none

/-- One canonicalization step: remove the first redex instruction and
rewire its uses to the replacement; `none` when the block has no redex. -/
def canonStepAux (whole : List CInstr) : List CInstr → Option (List CInstr)
  | [] => none
  | i :: rest =>
      match redexTarget whole i with
      | some repl => some (rest.map (substOperands (defOfC i) repl))
      | none => (canonStepAux whole rest).map (i :: ·)

/-- One canonicalization step over a block. -/
def canonStep (block : List CInstr) : Option (List CInstr) :=
  canonStepAux block block

/-- Fuel-bounded iteration of `canonStep` to a fixed point, returning
whether any instruction was canonicalized away. -/
def canonLoop : Nat → List CInstr → Bool × List CInstr
  | 0, block => (false, block)
  | fuel + 1, block =>
      match canonStep block with
      | none => (false, block)
      | some b2 => (true, (canonLoop fuel b2).2)

/-- Modelled from the spec: `Canonicalize` applies local identities until
a fixed point and returns whether anything was canonicalized away; the
fuel `length + 1` always suffices because every step removes an
instruction. -/
def canonicalize (block : List CInstr) : Bool × List CInstr :=
  canonLoop (block.length + 1) block

theorem canonStepAux_length : ∀ (whole l l2 : List CInstr),
    canonStepAux whole l = some l2 → l2.length + 1 = l.length
  | _, [], _, h => by cases h
  | whole, i :: rest, l2, h => by
      dsimp only [canonStepAux] at h
      cases hr : redexTarget whole i with
      | some repl =>
          rw [hr] at h
          cases h
          simp
      | none =>
          rw [hr] at h
          cases hc : canonStepAux whole rest with
          | none => rw [hc] at h; cases h
          | some l3 =>
              rw [hc] at h
              cases h
              have := canonStepAux_length whole rest l3 hc
              simp only [List.length_cons]
              omega

theorem canonStep_length (block b2 : List CInstr)
    (h : canonStep block = some b2) : b2.length + 1 = block.length :=
  canonStepAux_length block block b2 h

theorem canonLoop_reaches_fixed : ∀ (fuel : Nat) (block : List CInstr),
    block.length < fuel → canonStep (canonLoop fuel block).2 = none
  | 0, _, h => absurd h (Nat.not_lt_zero _)
  | fuel + 1, block, h => by
      dsimp only [canonLoop]
      cases hc : canonStep block with
      | none => exact hc
      | some b2 =>
          have hlen := canonStep_length block b2 hc
          exact canonLoop_reaches_fixed fuel b2 (by omega)

theorem canonLoop_length_le : ∀ (fuel : Nat) (block : List CInstr),
    (canonLoop fuel block).2.length ≤ block.length
  | 0, _ => le_refl _
  | fuel + 1, block => by
      dsimp only [canonLoop]
      cases hc : canonStep block with
      | none => exact le_refl _
      | some b2 =>
          have hlen := canonStep_length block b2 hc
          have hrec := canonLoop_length_le fuel b2
          exact le_trans hrec (by omega)

theorem canonicalize_of_fixed (block : List CInstr)
    (h : canonStep block = none) : canonicalize block = (false, block) := by
  unfold canonicalize
  dsimp only [canonLoop]
  rw [h]

theorem canonicalize_of_step (b b2 : List CInstr)
    (h : canonStep b = some b2) :
    canonicalize b = (true, (canonLoop b.length b2).2) := by
  unfold canonicalize
  dsimp only [canonLoop]
  rw [h]

/-- C6: `Canonicalize` run twice in sequence on any graph returns `false`
(nothing canonicalized away) on the second run and leaves the graph of the
first run unchanged, because the first run iterates the local identities
to a fixed point; moreover the returned Boolean reports whether anything
changed — `false` means the graph is returned as given and `true` means it
was altered. -/
theorem canonicalize_idempotent (block : List CInstr) :
    (canonicalize (canonicalize block).2).1 = false ∧
    (canonicalize (canonicalize block).2).2 = (canonicalize block).2 ∧
    (∀ b : List CInstr, (canonicalize b).1 = false → (canonicalize b).2 = b) ∧
    (∀ b : List CInstr, (canonicalize b).1 = true → (canonicalize b).2 ≠ b) := by
  have hfix : canonStep (canonicalize block).2 = none :=
    canonLoop_reaches_fixed (block.length + 1) block (Nat.lt_succ_self _)
  have h2 := canonicalize_of_fixed _ hfix
  refine ⟨by rw [h2], by rw [h2], ?_, ?_⟩
  · intro b hb
    cases hc : canonStep b with
    | none => rw [canonicalize_of_fixed b hc]
    | some b2 =>
        rw [canonicalize_of_step b b2 hc] at hb
        exact Bool.noConfusion hb
  · intro b hb he
    cases hc : canonStep b with
    | none =>
        rw [canonicalize_of_fixed b hc] at hb
        exact Bool.noConfusion hb
    | some b2 =>
        rw [canonicalize_of_step b b2 hc] at he
        have he2 : (canonLoop b.length b2).2 = b := he
        have hlen := canonStep_length b b2 hc
        have hle := canonLoop_length_le b.length b2
        rw [he2] at hle
        omega

/-- C6 witness: the fixed point and the changed-flag contract evaluated on
concrete blocks (a strippable no-op conversion plus a foldable double
negation, and an already-canonical one-parameter block). -/
theorem canonicalize_idempotent_witness :
    (canonicalize (canonicalize [CInstr.conversion 1 0 .tagged .tagged,
        CInstr.unaryNeg 2 1]).2).1 = false ∧
    (canonicalize [CInstr.param 0]).2 = [CInstr.param 0] :=
  ⟨(canonicalize_idempotent
      [CInstr.conversion 1 0 .tagged .tagged, CInstr.unaryNeg 2 1]).1,
   (canonicalize_idempotent [CInstr.param 0]).2.2.1 [CInstr.param 0]
      (by decide)⟩

end DartVM
